import Mathlib

/-!
Verification of the Noughts-and-Crosses board and move engine (`ttt.py`).

The board is a list of 9 cells, each holding an optional owner string;
the `Cell.player` getter reports the sentinel string `"empty"` for an
unowned cell.  `set_cell` mirrors Python list indexing, including its
acceptance of negative positions in `[-9, 0)`, and mirrors the raise
points of the source: an out-of-range position fails before any state
is touched, and claiming an occupied cell fails inside the cell setter
before the owner is written or the turn counter is incremented.
The move engine `generate_move` tries the seven tactics of the source
in order and returns the first result; the two randomized tactics take
an explicit selection oracle `pick` in place of `random.choice`.
-/

namespace TTT

/-- Error kinds surfaced by `set_cell`: Python's `IndexError` on a bad
position (the spec's `OutOfRangeError`) and the exception raised by the
`Cell.player` setter on an occupied cell (the spec's `OccupiedCellError`). -/
inductive Err where
  | outOfRange
  | occupiedCell
deriving DecidableEq

/-- Board state: the 9 cell owners in index order (`none` = empty cell),
the number of moves made (`self.__turn`), and the fixed player order
(`self.players`, `['X', 'O']` at construction). -/
structure Board where
  cells : List (Option String)
  turn : Nat
  players : List String
deriving DecidableEq

/-- `Board.__init__`: nine empty cells, zero turns, players `['X', 'O']`. -/
def initBoard : Board := ⟨List.replicate 9 none, 0, ["X", "O"]⟩

/-- Owner of the cell at index `i` (`None` in Python = `none`). -/
def owner (b : Board) (i : Nat) : Option String := b.cells.getD i none

/-- `Cell.player` getter: `"empty"` if the cell is empty, else the owner. -/
def playerAt (b : Board) (i : Nat) : String := (owner b i).getD "empty"

/-- `Board.player_up`: `self.players[self.turn % 2]`. -/
def player_up (b : Board) : String := b.players.getD (b.turn % 2) ""

/-- `Board.opponent`: `players[1] if player == players[0] else players[0]`. -/
def opponent (b : Board) (p : String) : String :=
  if p == b.players.getD 0 "" then b.players.getD 1 "" else b.players.getD 0 ""

/-- `Board.rows`, as index triples. -/
def rows : List (List Nat) := [[0, 1, 2], [3, 4, 5], [6, 7, 8]]

/-- `Board.columns`, as index triples. -/
def columns : List (List Nat) := [[0, 3, 6], [1, 4, 7], [2, 5, 8]]

/-- `Board.diagonals`, as index triples. -/
def diagonals : List (List Nat) := [[0, 4, 8], [2, 4, 6]]

/-- `Board.vectors`: rows, then columns, then diagonals. -/
def vectors : List (List Nat) := rows ++ columns ++ diagonals

/-- `Board.vectors_for_cell`: the vectors containing the given cell. -/
def vectors_for_cell (c : Nat) : List (List Nat) :=
  vectors.filter (fun v => v.contains c)

/-- `Board.empty_cells`: the indices of the empty cells, in ascending order. -/
def empty_cells (b : Board) : List Nat :=
  (List.range b.cells.length).filter (fun i => (owner b i).isNone)

/-- `Board.__vector_stats(vector).get(p, 0)`: how many cells of the vector
report `p` from the `Cell.player` getter (so `p = "empty"` counts the
empty cells). -/
def vector_stats (b : Board) (v : List Nat) (p : String) : Nat :=
  v.countP (fun i => playerAt b i == p)

/-- `Board.winning_move`: does some vector through this cell hold three
cells reporting the same `Cell.player` value as this cell? -/
def winning_move (b : Board) (c : Nat) : Bool :=
  (vectors_for_cell c).any (fun v => vector_stats b v (playerAt b c) == 3)

/-- `Board.cell_empty`. -/
def cell_empty (b : Board) (i : Nat) : Bool := (owner b i).isNone

/-- `Board.in_cell`. -/
def in_cell (b : Board) (i : Nat) : String := playerAt b i

/-- Python list indexing for `self.board[position]`: a position in
`[0, n)` is used as is, a position in `[-n, 0)` counts from the end,
anything else raises `IndexError`. -/
def pyIdx (n : Nat) (i : Int) : Option Nat :=
  if 0 ≤ i ∧ i < (n : Int) then some i.toNat
  else if -(n : Int) ≤ i ∧ i < 0 then some (i + n).toNat
  else none

/-- `Cell.player` setter: mark an empty cell, raise on an occupied one. -/
def cellSet (c : Option String) (p : String) : Except Err (Option String) :=
  match c with
  | none => .ok (some p)
  | some _ => .error .occupiedCell

/-- `Board.set_cell(position, player)`: look the cell up (Python indexing;
a bad position raises before any mutation), mark it via the cell setter
(which raises on an occupied cell before the owner or the turn counter is
touched), then increment the turn counter.  Errors carry the board state
at the raise point; success returns the new board and the cell's index. -/
def set_cell (b : Board) (pos : Int) (p : String) : Except (Err × Board) (Board × Nat) :=
  match pyIdx b.cells.length pos with
  | none => .error (.outOfRange, b)
  | some idx =>
    match cellSet (b.cells.getD idx none) p with
    | .error e => .error (e, b)
    | .ok c => .ok ({ b with cells := b.cells.set idx c, turn := b.turn + 1 }, idx)

/-- `Board.__winnable_vector`: player has 2 cells and 1 is empty. -/
def winnable_vector (b : Board) (v : List Nat) (p : String) : Bool :=
  vector_stats b v p == 2 && vector_stats b v "empty" == 1

/-- `Board.__winning_move_for`: first empty cell of the first winnable
vector (a winnable vector with no genuinely empty cell is skipped, as in
the source's nested loops). -/
def winning_move_for (b : Board) (p : String) : Option Nat :=
  vectors.findSome? (fun v =>
    if winnable_vector b v p then v.find? (fun i => (owner b i).isNone) else none)

/-- `Board.__move_makes_fork`: at least 2 vectors through the cell hold
exactly 1 cell of the player and 2 empty cells (counted on the current
board, the candidate cell itself still being empty). -/
def move_makes_fork (b : Board) (c : Nat) (p : String) : Bool :=
  decide (2 ≤ (vectors_for_cell c).countP
    (fun v => vector_stats b v p == 1 && vector_stats b v "empty" == 2))

/-- `Board.__possible_wins`: empty cells lying on some vector free of
opponent cells. -/
def possible_wins (b : Board) (p : String) : List Nat :=
  (empty_cells b).filter (fun i =>
    (vectors_for_cell i).any (fun v => vector_stats b v (opponent b p) == 0))

/-- `Board.__first_move`: a random corner on the opening move. -/
def first_move (pick : List Nat → Nat) (b : Board) : Option Nat :=
  if b.turn == 0 then some (pick [0, 2, 6, 8]) else none

/-- `Board.__take_winning_move`. -/
def take_winning_move (b : Board) : Option Nat :=
  winning_move_for b (player_up b)

/-- `Board.__block_winning_move`. -/
def block_winning_move (b : Board) : Option Nat :=
  winning_move_for b (opponent b (player_up b))

/-- `Board.__create_fork`: first empty cell whose claim makes a fork. -/
def create_fork (b : Board) : Option Nat :=
  (empty_cells b).find? (fun c => move_makes_fork b c (player_up b))

/-- `Board.__block_diag_fork`: with exactly 6 empty cells, the mover on
the center of a diagonal and the opponent on both of its ends, claim a
random edge midpoint. -/
def block_diag_fork (pick : List Nat → Nat) (b : Board) : Option Nat :=
  if (empty_cells b).length == 6 then
    diagonals.findSome? (fun d =>
      if playerAt b (d.getD 1 0) == player_up b
          && (playerAt b (d.getD 0 0) == opponent b (player_up b)
              && playerAt b (d.getD 2 0) == opponent b (player_up b))
      then some (pick [1, 3, 5, 7]) else none)
  else none

/-- `Board.__block_fork`: first empty cell whose claim would make a fork
for the opponent. -/
def block_fork (b : Board) : Option Nat :=
  (empty_cells b).find? (fun c => move_makes_fork b c (opponent b (player_up b)))

/-- The preference order of `Board.__default_move`. -/
def preferred_move_order : List Nat := [4, 0, 2, 6, 8, 1, 3, 5, 7]

/-- `Board.__default_move`: first preferred cell that could still lead to a
win, else first preferred empty cell (implicitly `None` on a full board). -/
def default_move (b : Board) : Option Nat :=
  match preferred_move_order.find?
      (fun c => (possible_wins b (player_up b)).contains c) with
  | some c => some c
  | none => preferred_move_order.find? (fun c => cell_empty b c)

/-- `Board.generate_move`: try the seven tactics in order, returning the
first result that is not `None`. -/
def generate_move (pick : List Nat → Nat) (b : Board) : Option Nat :=
  match first_move pick b with
  | some m => some m
  | none =>
    match take_winning_move b with
    | some m => some m
    | none =>
      match block_winning_move b with
      | some m => some m
      | none =>
        match create_fork b with
        | some m => some m
        | none =>
          match block_diag_fork pick b with
          | some m => some m
          | none =>
            match block_fork b with
            | some m => some m
            | none => default_move b

/-- Board states reachable from a fresh board by successful claims. -/
inductive Reachable : Board → Prop where
  | init : Reachable initBoard
  | step {b b' : Board} {pos : Int} {p : String} {i : Nat} :
      Reachable b → set_cell b pos p = .ok (b', i) → Reachable b'

/-- The board after claiming cell `c` for `p` (only the cell owners matter
to the line statistics, so the turn counter is left alone). -/
def claim_board (b : Board) (c : Nat) (p : String) : Board :=
  { b with cells := b.cells.set c (some p) }

/-- Modelled from the spec (claim C3's wording): after claiming `c` for
`p`, at least 2 of the 8 vectors (anywhere on the board) hold exactly 1
cell of `p` and 2 empty cells. -/
def spec_fork_cond (b : Board) (c : Nat) (p : String) : Prop :=
  2 ≤ vectors.countP (fun v =>
    vector_stats (claim_board b c p) v p == 1
      && vector_stats (claim_board b c p) v "empty" == 2)

instance (b : Board) (c : Nat) (p : String) : Decidable (spec_fork_cond b c p) := by
  unfold spec_fork_cond; infer_instance

/-- Number of vectors through `c` that are immediate winning threats for
`p` once `c` has been claimed for `p`: exactly 2 cells of `p` and 1
empty cell. -/
def fork_threats (b : Board) (c : Nat) (p : String) : Nat :=
  (vectors_for_cell c).countP (fun v =>
    vector_stats (claim_board b c p) v p == 2
      && vector_stats (claim_board b c p) v "empty" == 1)

/-! ### List helper lemmas -/

theorem getD_set_self {α : Type} :
    ∀ (l : List α) (i : Nat) (x d : α), i < l.length → (l.set i x).getD i d = x := by
  intro l
  induction l with
  | nil => intro i x d h; simp at h
  | cons a t ih =>
    intro i x d h
    cases i with
    | zero => rfl
    | succ n => simpa using ih n x d (by simpa using h)

theorem getD_set_ne {α : Type} :
    ∀ (l : List α) (i j : Nat) (x d : α), i ≠ j → (l.set i x).getD j d = l.getD j d := by
  intro l
  induction l with
  | nil => intro i j x d _; simp
  | cons a t ih =>
    intro i j x d h
    cases i with
    | zero =>
      cases j with
      | zero => exact absurd rfl h
      | succ m => rfl
    | succ n =>
      cases j with
      | zero => rfl
      | succ m => simpa using ih n m x d (fun e => h (by omega))

theorem countP_set_some :
    ∀ (l : List (Option String)) (i : Nat) (p : String), i < l.length →
      l.getD i none = none →
      (l.set i (some p)).countP (·.isSome) = l.countP (·.isSome) + 1 := by
  intro l
  induction l with
  | nil => intro i p h _; simp at h
  | cons a t ih =>
    intro i p h he
    cases i with
    | zero =>
      have ha : a = none := he
      subst ha
      simp [List.countP_cons]
    | succ n =>
      have := ih n p (by simpa using h) (by simpa using he)
      simp only [List.set_cons_succ, List.countP_cons]
      omega

theorem range_filter_length {α : Type} (f : α → Bool) (d : α) :
    ∀ (l : List α),
      ((List.range l.length).filter (fun i => f (l.getD i d))).length = l.countP f := by
  intro l
  induction l with
  | nil => simp
  | cons a t ih =>
    have hr : List.range (a :: t).length = 0 :: (List.range t.length).map Nat.succ := by
      simpa using List.range_succ_eq_map t.length
    rw [hr, List.filter_cons]
    have hmap : ((List.range t.length).map Nat.succ).filter
        (fun i => f ((a :: t).getD i d))
        = ((List.range t.length).filter (fun i => f (t.getD i d))).map Nat.succ := by
      rw [List.filter_map]
      rfl
    by_cases hfa : f a
    · simp only [List.getD_cons_zero, hfa, if_pos, List.length_cons, hmap,
        List.length_map, ih, List.countP_cons]
    · simp only [List.getD_cons_zero, hfa, Bool.false_eq_true, if_neg, not_false_iff,
        hmap, List.length_map, ih, List.countP_cons]
      omega

theorem countP_none_add_some :
    ∀ (l : List (Option String)),
      l.countP (·.isNone) + l.countP (·.isSome) = l.length := by
  intro l
  induction l with
  | nil => rfl
  | cons a t ih =>
    cases a <;> simp [List.countP_cons] <;> omega

theorem find?_first_false {p : Nat → Bool} {c : Nat} :
    ∀ {l : List Nat}, l.Pairwise (· < ·) → l.find? p = some c →
      ∀ x ∈ l, x < c → p x = false := by
  intro l
  induction l with
  | nil => intro _ h; simp at h
  | cons a t ih =>
    intro hpw hf x hx hlt
    by_cases ha : p a
    · have hac : a = c := by
        rw [List.find?_cons_of_pos _ ha] at hf
        exact Option.some_injective _ hf
      subst hac
      rcases List.mem_cons.mp hx with rfl | hxt
      · omega
      · have := (List.pairwise_cons.mp hpw).1 x hxt
        omega
    · rcases List.mem_cons.mp hx with rfl | hxt
      · exact Bool.eq_false_iff.mpr ha
      · rw [List.find?_cons_of_neg _ ha] at hf
        exact ih (List.pairwise_cons.mp hpw).2 hf x hxt hlt

/-! ### Board-level bridge lemmas -/

theorem mem_empty_cells {b : Board} {i : Nat} :
    i ∈ empty_cells b ↔ i < b.cells.length ∧ owner b i = none := by
  simp [empty_cells, List.mem_filter, List.mem_range, Option.isNone_iff_eq_none]

theorem empty_cells_pairwise (b : Board) : (empty_cells b).Pairwise (· < ·) :=
  (List.pairwise_lt_range b.cells.length).filter _

theorem empty_cells_length (b : Board) :
    (empty_cells b).length = b.cells.countP (·.isNone) := by
  have h := range_filter_length (fun x : Option String => x.isNone) none b.cells
  simpa [empty_cells, owner] using h

theorem playerAt_of_owner_some {b : Board} {i : Nat} {q : String}
    (h : owner b i = some q) : playerAt b i = q := by
  simp [playerAt, h]

theorem playerAt_of_owner_none {b : Board} {i : Nat}
    (h : owner b i = none) : playerAt b i = "empty" := by
  simp [playerAt, h]

theorem playerAt_eq_iff {b : Board} {i : Nat} {p : String} (hp : p ≠ "empty") :
    playerAt b i = p ↔ owner b i = some p := by
  cases h : owner b i with
  | none =>
    simp only [playerAt_of_owner_none h]
    exact ⟨fun he => absurd he.symm hp, fun he => by cases he⟩
  | some q =>
    simp [playerAt_of_owner_some h, h]

theorem vec_lt : ∀ v ∈ vectors, ∀ i ∈ v, i < 9 := by decide

theorem vec_len3 : ∀ v ∈ vectors, v.length = 3 := by decide

theorem mem_vectors_for_cell {v : List Nat} {c : Nat} :
    v ∈ vectors_for_cell c ↔ v ∈ vectors ∧ c ∈ v := by
  simp [vectors_for_cell, List.mem_filter]

theorem pyIdx_lt {n : Nat} {i : Int} {j : Nat} (h : pyIdx n i = some j) : j < n := by
  unfold pyIdx at h
  split at h
  · rename_i hc
    injection h with h'
    omega
  · split at h
    · rename_i hc
      injection h with h'
      omega
    · exact absurd h (by simp)

theorem set_cell_ok {b b' : Board} {pos : Int} {p : String} {i : Nat}
    (h : set_cell b pos p = .ok (b', i)) :
    pyIdx b.cells.length pos = some i ∧ i < b.cells.length ∧ owner b i = none ∧
      b' = { b with cells := b.cells.set i (some p), turn := b.turn + 1 } := by
  unfold set_cell at h
  split at h
  · exact absurd h (by simp)
  · rename_i idx hpy
    split at h
    · exact absurd h (by simp)
    · rename_i c hcs
      unfold cellSet at hcs
      split at hcs
      · rename_i hnone
        injection hcs with hc
        subst hc
        injection h with hpair
        injection hpair with hb hii
        subst hii
        exact ⟨hpy, pyIdx_lt hpy, hnone, hb.symm⟩
      · exact absurd hcs (by simp)

theorem owner_none_of_count0 {b : Board}
    (h : b.cells.countP (·.isSome) = 0) (i : Nat) : owner b i = none := by
  by_cases hi : i < b.cells.length
  · have hmem : b.cells.getD i none ∈ b.cells := by
      rw [List.getD_eq_getElem _ _ hi]
      exact List.getElem_mem hi
    have := (List.countP_eq_zero.mp h) _ hmem
    cases ho : b.cells.getD i none with
    | none => exact ho
    | some q => rw [ho] at this; simp at this
  · have hn : b.cells[i]? = none := List.getElem?_eq_none (Nat.le_of_not_lt hi)
    simp [owner, List.getD_eq_getElem?_getD, hn]

theorem reachable_inv {b : Board} (h : Reachable b) :
    b.cells.length = 9 ∧ b.players = ["X", "O"] ∧
      b.turn = b.cells.countP (·.isSome) := by
  induction h with
  | init => exact ⟨rfl, rfl, rfl⟩
  | @step b0 b1 pos p i hr hs ih =>
    obtain ⟨hlen, hpl, hturn⟩ := ih
    obtain ⟨hpy, hlt, hnone, hb'⟩ := set_cell_ok hs
    subst hb'
    refine ⟨by simpa using hlen, hpl, ?_⟩
    show b0.turn + 1 = (b0.cells.set i (some p)).countP (·.isSome)
    rw [countP_set_some b0.cells i p hlt hnone, hturn]

theorem owner_def (b : Board) (i : Nat) : owner b i = b.cells.getD i none := rfl

/-! ### Claim theorems -/

/-- Claim C1, amended: claiming an already-owned cell always fails with
`OccupiedCellError`; claiming an index outside `[-9, 9)` always fails with
`OutOfRangeError` (a negative position in `[-9, 0)` is accepted by Python
list indexing and addresses cell `position + 9`); and claiming a valid
empty cell at a position in `[0, 9)` always succeeds, sets that cell's
owner to the given player, and increments `turnCount` by exactly 1. -/
theorem claim_cell_spec (b : Board) (pos : Int) (p : String)
    (h9 : b.cells.length = 9) :
    ((pos < -9 ∨ 9 ≤ pos) → set_cell b pos p = .error (.outOfRange, b)) ∧
    (∀ j : Nat, pyIdx 9 pos = some j → (owner b j).isSome →
      set_cell b pos p = .error (.occupiedCell, b)) ∧
    (0 ≤ pos → pos < 9 → owner b pos.toNat = none →
      ∃ b' : Board, set_cell b pos p = .ok (b', pos.toNat) ∧
        owner b' pos.toNat = some p ∧ b'.turn = b.turn + 1 ∧
        ∀ j : Nat, j ≠ pos.toNat → owner b' j = owner b j) := by
  refine ⟨?_, ?_, ?_⟩
  · intro hout
    have hpy : pyIdx b.cells.length pos = none := by
      rw [h9]
      unfold pyIdx
      rw [if_neg (by omega), if_neg (by omega)]
    unfold set_cell
    rw [hpy]
  · intro j hj hocc
    have hpy : pyIdx b.cells.length pos = some j := by rw [h9]; exact hj
    obtain ⟨q, hq⟩ := Option.isSome_iff_exists.mp hocc
    rw [owner_def] at hq
    simp only [set_cell, hpy, hq, cellSet]
  · intro h0 hlt he
    have hlt9 : pos.toNat < 9 := by omega
    have hpy : pyIdx b.cells.length pos = some pos.toNat := by
      rw [h9]
      unfold pyIdx
      rw [if_pos (by omega)]
    rw [owner_def] at he
    refine ⟨{ b with cells := b.cells.set pos.toNat (some p), turn := b.turn + 1 },
      ?_, ?_, rfl, ?_⟩
    · simp only [set_cell, hpy, he, cellSet]
    · rw [owner_def]
      exact getD_set_self b.cells pos.toNat (some p) none (by omega)
    · intro j hjne
      rw [owner_def, owner_def]
      exact getD_set_ne b.cells pos.toNat j (some p) none (fun hh => hjne hh.symm)

/-- Claim C1, counterexample to the claim as stated: position `-1` is not
in `[0, 9)`, yet claiming it on a fresh board does not fail with
`OutOfRangeError`: Python list indexing makes it claim cell 8. -/
theorem claim_cell_negative_index :
    set_cell initBoard (-1) "X" =
      .ok ({ initBoard with
              cells := (List.replicate 9 (none : Option String)).set 8 (some "X"),
              turn := 1 }, 8) := by
  rfl

/-- Claim C1, witness at a concrete input: claiming the empty cell 0 of a
fresh board succeeds with the documented effects. -/
theorem claim_cell_spec_witness :
    ∃ b' : Board, set_cell initBoard 0 "X" = .ok (b', (0 : Int).toNat) ∧
      owner b' (0 : Int).toNat = some "X" ∧ b'.turn = initBoard.turn + 1 ∧
      ∀ j : Nat, j ≠ (0 : Int).toNat → owner b' j = owner initBoard j :=
  (claim_cell_spec initBoard 0 "X" rfl).2.2 (by decide) (by decide) (by decide)

/-- Claim C9: a claim that fails because the target cell is already owned
leaves the board entirely unchanged: the cell setter raises before any
owner is written and before the turn counter is incremented. -/
theorem occupied_claim_atomic (b : Board) (pos : Int) (p : String) (b' : Board)
    (h : set_cell b pos p = .error (.occupiedCell, b')) :
    b'.cells = b.cells ∧ b'.turn = b.turn := by
  unfold set_cell at h
  split at h
  · injection h with h1
    injection h1 with he hb
    cases he
  · split at h
    · injection h with h1
      injection h1 with he hb
      subst hb
      exact ⟨rfl, rfl⟩
    · exact absurd h (by simp)

/-- Claim C9, witness at a concrete input: re-claiming the occupied cell 0
fails and the carried board state is the untouched input board. -/
theorem occupied_claim_atomic_witness :
    (Board.mk [some "X", none, none, none, none, none, none, none, none] 1
        ["X", "O"]).cells
      = (Board.mk [some "X", none, none, none, none, none, none, none, none] 1
        ["X", "O"]).cells ∧
    (Board.mk [some "X", none, none, none, none, none, none, none, none] 1
        ["X", "O"]).turn
      = (Board.mk [some "X", none, none, none, none, none, none, none, none] 1
        ["X", "O"]).turn :=
  occupied_claim_atomic
    (Board.mk [some "X", none, none, none, none, none, none, none, none] 1 ["X", "O"])
    0 "O"
    (Board.mk [some "X", none, none, none, none, none, none, none, none] 1 ["X", "O"])
    (by rfl)

/-- Claim C5: for a cell owned by a real player `p` (the sentinel
`"empty"` is not a player), `winning_move` is true iff some vector
containing the cell has all 3 cells owned by `p`. -/
theorem winning_move_iff (b : Board) (c : Nat) (p : String)
    (ho : owner b c = some p) (hp : p ≠ "empty") :
    winning_move b c = true ↔
      ∃ v, v ∈ vectors ∧ c ∈ v ∧ ∀ i ∈ v, owner b i = some p := by
  have hpc : playerAt b c = p := playerAt_of_owner_some ho
  unfold winning_move
  rw [List.any_eq_true]
  constructor
  · rintro ⟨v, hv, hst⟩
    obtain ⟨hvv, hcv⟩ := mem_vectors_for_cell.mp hv
    rw [hpc, beq_iff_eq] at hst
    refine ⟨v, hvv, hcv, fun i hi => ?_⟩
    have hall := List.countP_eq_length.mp
      (by rw [← vector_stats, hst, vec_len3 v hvv])
    have := hall i hi
    rw [beq_iff_eq] at this
    exact (playerAt_eq_iff hp).mp this
  · rintro ⟨v, hvv, hcv, hall⟩
    refine ⟨v, mem_vectors_for_cell.mpr ⟨hvv, hcv⟩, ?_⟩
    rw [hpc, beq_iff_eq]
    show vector_stats b v p = 3
    rw [← vec_len3 v hvv]
    exact List.countP_eq_length.mpr
      (fun i hi => by rw [playerAt_of_owner_some (hall i hi)]; simp)

/-- Claim C5, witness at a concrete input: with the top row owned by
`"X"`, the win test reports cell 2 as winning. -/
theorem winning_move_iff_witness :
    winning_move ⟨[some "X", some "X", some "X", none, none, none, none, none, none],
      3, ["X", "O"]⟩ 2 = true :=
  (winning_move_iff
      ⟨[some "X", some "X", some "X", none, none, none, none, none, none],
        3, ["X", "O"]⟩ 2 "X" (by decide) (by decide)).mpr
    ⟨[0, 1, 2], by decide, by decide, by decide⟩

/-- Claim C10: for an empty cell, the win test is true whenever some
vector through it has all 3 cells empty, because an empty cell reports
the sentinel owner `"empty"` and three `"empty"` cells count as three
identical owners; in particular, on a fresh board the win test is true
for every cell. -/
theorem empty_vector_wins :
    (∀ (b : Board) (c : Nat), owner b c = none →
      (∃ v, v ∈ vectors ∧ c ∈ v ∧ ∀ i ∈ v, owner b i = none) →
      winning_move b c = true) ∧
    (∀ c, c < 9 → winning_move initBoard c = true) := by
  constructor
  · rintro b c hc ⟨v, hvv, hcv, hall⟩
    unfold winning_move
    rw [List.any_eq_true]
    refine ⟨v, mem_vectors_for_cell.mpr ⟨hvv, hcv⟩, ?_⟩
    rw [playerAt_of_owner_none hc, beq_iff_eq]
    show vector_stats b v "empty" = 3
    rw [← vec_len3 v hvv]
    exact List.countP_eq_length.mpr
      (fun i hi => by rw [playerAt_of_owner_none (hall i hi)]; simp)
  · decide

/-- Claim C10, witness at a concrete input: the fresh board's center cell
is empty yet reported as a winning cell. -/
theorem empty_vector_wins_witness : winning_move initBoard 4 = true :=
  empty_vector_wins.1 initBoard 4 rfl ⟨[0, 4, 8], by decide, by decide, by decide⟩

/-- Claim C4: every board reachable from a fresh board by successful
claims has `turnCount` equal to the number of non-empty cells, and the
player up is the fixed two-player order `["X", "O"]` at index
`turnCount % 2`. -/
theorem turn_invariant (b : Board) (h : Reachable b) :
    b.turn = b.cells.countP (·.isSome) ∧
      player_up b = ["X", "O"].getD (b.turn % 2) "" := by
  obtain ⟨hlen, hpl, hturn⟩ := reachable_inv h
  exact ⟨hturn, by rw [player_up, hpl]⟩

/-- Claim C4, witness at a concrete input: the board after one successful
claim of cell 0. -/
theorem turn_invariant_witness :
    (Board.mk ((List.replicate 9 (none : Option String)).set 0 (some "X")) 1 ["X", "O"]).turn
        = (Board.mk ((List.replicate 9 (none : Option String)).set 0 (some "X")) 1
            ["X", "O"]).cells.countP (·.isSome) ∧
      player_up (Board.mk ((List.replicate 9 (none : Option String)).set 0 (some "X")) 1
          ["X", "O"])
        = ["X", "O"].getD ((Board.mk ((List.replicate 9 (none : Option String)).set 0
            (some "X")) 1 ["X", "O"]).turn % 2) "" :=
  turn_invariant _ (Reachable.step Reachable.init
    (show set_cell initBoard 0 "X" = .ok (_, 0) from rfl))

/-- Claim C8: on a board where the opening tactic does not apply
(`turnCount ≠ 0`) and the diagonal-fork-block tactic does not apply, the
engine's answer does not depend on the random source at all: two
invocations with arbitrary random sources return the identical cell. -/
theorem engine_deterministic (b : Board) (pick₁ pick₂ : List Nat → Nat)
    (h0 : b.turn ≠ 0) (hd : block_diag_fork pick₁ b = none) :
    generate_move pick₁ b = generate_move pick₂ b := by
  have hf1 : first_move pick₁ b = none := by
    unfold first_move
    rw [if_neg (by simpa using h0)]
  have hf2 : first_move pick₂ b = none := by
    unfold first_move
    rw [if_neg (by simpa using h0)]
  have hd2 : block_diag_fork pick₂ b = none := by
    unfold block_diag_fork at hd ⊢
    by_cases h6 : ((empty_cells b).length == 6) = true
    · rw [if_pos h6] at hd ⊢
      rw [List.findSome?_eq_none_iff] at hd ⊢
      intro d hdm
      have h1 := hd d hdm
      by_cases hc : (playerAt b (d.getD 1 0) == player_up b
          && (playerAt b (d.getD 0 0) == opponent b (player_up b)
              && playerAt b (d.getD 2 0) == opponent b (player_up b))) = true
      · rw [if_pos hc] at h1
        exact absurd h1 (by simp)
      · rw [if_neg hc]
    · rw [if_neg h6] at hd ⊢
  simp only [generate_move, hf1, hf2, hd, hd2]

/-- Claim C8, witness at a concrete input: a board with one claimed cell,
compared under two different random sources. -/
theorem engine_deterministic_witness :
    generate_move (fun l => l.headD 0)
        (Board.mk ((List.replicate 9 (none : Option String)).set 0 (some "X")) 1 ["X", "O"])
      = generate_move (fun l => l.getLastD 0)
        (Board.mk ((List.replicate 9 (none : Option String)).set 0 (some "X")) 1
          ["X", "O"]) :=
  engine_deterministic _ (fun l => l.headD 0) (fun l => l.getLastD 0)
    (by decide) (by decide)

/-! ### Fork tactic: before/after-claim correspondence -/

theorem vec_cases {v : List Nat} (h : v ∈ vectors) :
    v = [0, 1, 2] ∨ v = [3, 4, 5] ∨ v = [6, 7, 8] ∨ v = [0, 3, 6] ∨ v = [1, 4, 7] ∨
      v = [2, 5, 8] ∨ v = [0, 4, 8] ∨ v = [2, 4, 6] := by
  simpa [vectors, rows, columns, diagonals] using h

theorem playerAt_claim_self (b : Board) (c : Nat) (p : String)
    (h : c < b.cells.length) : playerAt (claim_board b c p) c = p := by
  show ((b.cells.set c (some p)).getD c none).getD "empty" = p
  rw [getD_set_self b.cells c (some p) none h]
  rfl

theorem playerAt_claim_ne (b : Board) (c : Nat) (p : String) (i : Nat)
    (h : c ≠ i) : playerAt (claim_board b c p) i = playerAt b i := by
  show ((b.cells.set c (some p)).getD i none).getD "empty" = _
  rw [getD_set_ne b.cells c i (some p) none h]
  rfl

theorem fork_line_shift (b : Board) (p : String) (hp : p ≠ "empty")
    (c i j k : Nat) (hij : i ≠ j) (hik : i ≠ k) (hjk : j ≠ k)
    (hc : c = i ∨ c = j ∨ c = k) (hlt : c < b.cells.length)
    (hce : owner b c = none) :
    (vector_stats b [i, j, k] p == 1 && vector_stats b [i, j, k] "empty" == 2)
      = (vector_stats (claim_board b c p) [i, j, k] p == 2
          && vector_stats (claim_board b c p) [i, j, k] "empty" == 1) := by
  have hpc : playerAt b c = "empty" := playerAt_of_owner_none hce
  have hpc' : playerAt (claim_board b c p) c = p := playerAt_claim_self b c p hlt
  have e1 : (("empty" : String) == p) = false :=
    beq_eq_false_iff_ne.mpr (fun h => hp h.symm)
  have e2 : (p == "empty") = false := beq_eq_false_iff_ne.mpr hp
  rcases hc with rfl | rfl | rfl
  · have hj := playerAt_claim_ne b c p j hij
    have hk := playerAt_claim_ne b c p k hik
    simp only [vector_stats, List.countP_cons, List.countP_nil, hpc, hpc', hj, hk,
      beq_self_eq_true, e1, e2]
    cases hA : (playerAt b j == p) <;> cases hB : (playerAt b k == p) <;>
      cases hC : (playerAt b j == "empty") <;> cases hD : (playerAt b k == "empty") <;>
      simp [hA, hB, hC, hD]
  · have hi := playerAt_claim_ne b c p i (fun h => hij h.symm)
    have hk := playerAt_claim_ne b c p k hjk
    simp only [vector_stats, List.countP_cons, List.countP_nil, hpc, hpc', hi, hk,
      beq_self_eq_true, e1, e2]
    cases hA : (playerAt b i == p) <;> cases hB : (playerAt b k == p) <;>
      cases hC : (playerAt b i == "empty") <;> cases hD : (playerAt b k == "empty") <;>
      simp [hA, hB, hC, hD]
  · have hi := playerAt_claim_ne b c p i (fun h => hik h.symm)
    have hj := playerAt_claim_ne b c p j (fun h => hjk h.symm)
    simp only [vector_stats, List.countP_cons, List.countP_nil, hpc, hpc', hi, hj,
      beq_self_eq_true, e1, e2]
    cases hA : (playerAt b i == p) <;> cases hB : (playerAt b j == p) <;>
      cases hC : (playerAt b i == "empty") <;> cases hD : (playerAt b j == "empty") <;>
      simp [hA, hB, hC, hD]

theorem move_makes_fork_iff (b : Board) (c : Nat) (p : String) (hp : p ≠ "empty")
    (hlt : c < b.cells.length) (hce : owner b c = none) :
    move_makes_fork b c p = true ↔ 2 ≤ fork_threats b c p := by
  have hcong : ∀ v ∈ vectors_for_cell c,
      ((vector_stats b v p == 1 && vector_stats b v "empty" == 2) = true
        ↔ (vector_stats (claim_board b c p) v p == 2
            && vector_stats (claim_board b c p) v "empty" == 1) = true) := by
    intro v hv
    obtain ⟨hvv, hcv⟩ := mem_vectors_for_cell.mp hv
    have hshift : (vector_stats b v p == 1 && vector_stats b v "empty" == 2)
        = (vector_stats (claim_board b c p) v p == 2
            && vector_stats (claim_board b c p) v "empty" == 1) := by
      rcases vec_cases hvv with rfl | rfl | rfl | rfl | rfl | rfl | rfl | rfl <;>
        (simp only [List.mem_cons, List.not_mem_nil, or_false] at hcv;
         exact fork_line_shift b p hp c _ _ _ (by decide) (by decide) (by decide)
           hcv hlt hce)
    rw [hshift]
  unfold move_makes_fork fork_threats
  rw [decide_eq_true_eq, List.countP_congr hcong]

/-- Claim C3, counterexample to the claim as stated: on this board (O at
cells 0 and 6, X at cells 2 and 4, X to move) `__create_fork` returns
cell 5, yet cell 1 is an earlier empty cell that satisfies the claim's
condition, read literally: after claiming cell 1 for the mover, the
mover has at least 2 lines (anywhere on the board) each holding exactly
1 mover cell and 2 empty cells.  So the returned cell is not the first
empty cell satisfying the claim's condition. -/
theorem create_fork_not_spec_first :
    create_fork (Board.mk [some "O", none, some "X", none, some "X", none, some "O",
        none, none] 4 ["X", "O"]) = some 5 ∧
    player_up (Board.mk [some "O", none, some "X", none, some "X", none, some "O",
        none, none] 4 ["X", "O"]) = "X" ∧
    1 ∈ empty_cells (Board.mk [some "O", none, some "X", none, some "X", none,
        some "O", none, none] 4 ["X", "O"]) ∧
    (1 : Nat) < 5 ∧
    spec_fork_cond (Board.mk [some "O", none, some "X", none, some "X", none,
        some "O", none, none] 4 ["X", "O"]) 1 "X" :=
  ⟨by decide, by decide, by decide, by decide, by decide⟩

/-- Claim C3, amended: if the create-fork tactic returns a cell `c`, then
`c` is the first empty cell in ascending index order such that, after
claiming `c` for the mover, at least 2 distinct lines through `c` each
contain exactly 2 mover cells and 1 empty cell (two immediate winning
threats). -/
theorem create_fork_first (b : Board) (c : Nat) (hp : player_up b ≠ "empty")
    (h : create_fork b = some c) :
    c ∈ empty_cells b ∧ 2 ≤ fork_threats b c (player_up b) ∧
      ∀ c' ∈ empty_cells b, c' < c → ¬ 2 ≤ fork_threats b c' (player_up b) := by
  have hmem := List.mem_of_find?_eq_some h
  have hfork := List.find?_some h
  obtain ⟨hlt, hce⟩ := mem_empty_cells.mp hmem
  refine ⟨hmem, (move_makes_fork_iff b c _ hp hlt hce).mp hfork, ?_⟩
  intro c' hc' hlt' habs
  obtain ⟨hlt2, hce2⟩ := mem_empty_cells.mp hc'
  have hfalse := find?_first_false (empty_cells_pairwise b) h c' hc' hlt'
  have htrue := (move_makes_fork_iff b c' _ hp hlt2 hce2).mpr habs
  rw [hfalse] at htrue
  cases htrue

/-- Claim C3, witness at a concrete input: the counterexample board,
where the tactic returns cell 5 and indeed cells 1 and 3 yield fewer
than 2 immediate threats. -/
theorem create_fork_first_witness :
    5 ∈ empty_cells (Board.mk [some "O", none, some "X", none, some "X", none,
        some "O", none, none] 4 ["X", "O"]) ∧
    2 ≤ fork_threats (Board.mk [some "O", none, some "X", none, some "X", none,
        some "O", none, none] 4 ["X", "O"]) 5
      (player_up (Board.mk [some "O", none, some "X", none, some "X", none,
        some "O", none, none] 4 ["X", "O"])) ∧
    ∀ c' ∈ empty_cells (Board.mk [some "O", none, some "X", none, some "X", none,
        some "O", none, none] 4 ["X", "O"]), c' < 5 →
      ¬ 2 ≤ fork_threats (Board.mk [some "O", none, some "X", none, some "X", none,
        some "O", none, none] 4 ["X", "O"]) c'
        (player_up (Board.mk [some "O", none, some "X", none, some "X", none,
          some "O", none, none] 4 ["X", "O"])) :=
  create_fork_first (Board.mk [some "O", none, some "X", none, some "X", none,
      some "O", none, none] 4 ["X", "O"]) 5 (by decide) (by decide)

/-! ### Soundness of the individual tactics -/

theorem nodup_occupied_le (l : List (Option String)) (idxs : List Nat)
    (hnd : idxs.Nodup) (h : ∀ i ∈ idxs, i < l.length ∧ (l.getD i none).isSome) :
    idxs.length ≤ l.countP (·.isSome) := by
  have hsub : idxs ⊆ (List.range l.length).filter (fun i => (l.getD i none).isSome) := by
    intro i hi
    rw [List.mem_filter, List.mem_range]
    exact ⟨(h i hi).1, (h i hi).2⟩
  exact (List.subperm_of_subset hnd hsub).length_le.trans
    (le_of_eq (range_filter_length (fun x => x.isSome) none l))

theorem owner_isSome_of_playerAt_ne {b : Board} {i : Nat}
    (h : playerAt b i ≠ "empty") : (owner b i).isSome := by
  cases ho : owner b i with
  | none => exact absurd (playerAt_of_owner_none ho) h
  | some q => rfl

theorem player_up_cases {b : Board} (hpl : b.players = ["X", "O"]) :
    player_up b = "X" ∨ player_up b = "O" := by
  unfold player_up
  rw [hpl]
  rcases Nat.mod_two_eq_zero_or_one b.turn with h2 | h2 <;> simp [h2]

theorem opponent_cases {b : Board} (hpl : b.players = ["X", "O"]) (p : String) :
    opponent b p = "X" ∨ opponent b p = "O" := by
  unfold opponent
  rw [hpl]
  by_cases h : (p == "X") = true <;> simp [h]

theorem winning_move_for_sound {b : Board} {p : String} {i : Nat}
    (h : winning_move_for b p = some i) :
    owner b i = none ∧ i < 9 ∧ ∃ v ∈ vectors, winnable_vector b v p = true ∧ i ∈ v := by
  obtain ⟨v, hv, hfv⟩ := List.exists_of_findSome?_eq_some h
  by_cases hw : winnable_vector b v p = true
  · rw [if_pos hw] at hfv
    have hmem := List.mem_of_find?_eq_some hfv
    have hprop := List.find?_some hfv
    exact ⟨by simpa using hprop, vec_lt v hv i hmem, v, hv, hw, hmem⟩
  · rw [if_neg hw] at hfv
    cases hfv

theorem find_empty_sound {b : Board} {P : Nat → Bool} {c : Nat}
    (h : (empty_cells b).find? P = some c) :
    owner b c = none ∧ c < b.cells.length := by
  have hmem := mem_empty_cells.mp (List.mem_of_find?_eq_some h)
  exact ⟨hmem.2, hmem.1⟩

theorem block_diag_fork_sound {pick : List Nat → Nat} {b : Board} {m : Nat}
    (hlen : b.cells.length = 9) (hpl : b.players = ["X", "O"])
    (hpick : ∀ l : List Nat, l ≠ [] → pick l ∈ l)
    (h : block_diag_fork pick b = some m) :
    owner b m = none ∧ m < 9 := by
  unfold block_diag_fork at h
  by_cases h6 : ((empty_cells b).length == 6) = true
  · rw [if_pos h6] at h
    obtain ⟨d, hd, hfd⟩ := List.exists_of_findSome?_eq_some h
    split at hfd
    pick_goal 2
    · cases hfd
    next hcnd =>
      injection hfd with hfd'
      have hm : m ∈ [1, 3, 5, 7] := hfd' ▸ hpick [1, 3, 5, 7] (by simp)
      -- the three cells named by the matched diagonal are occupied
      have hemp6 : b.cells.countP (·.isNone) = 6 := by
        rw [← empty_cells_length]
        simpa using h6
      have hsome3 : b.cells.countP (·.isSome) = 3 := by
        have := countP_none_add_some b.cells
        omega
      rw [Bool.and_eq_true, Bool.and_eq_true] at hcnd
      obtain ⟨hc1, hc0, hc2⟩ := hcnd
      rw [beq_iff_eq] at hc1 hc0 hc2
      have hup : player_up b ≠ "empty" := by
        rcases player_up_cases hpl with he | he <;> rw [he] <;> decide
      have hop : opponent b (player_up b) ≠ "empty" := by
        rcases opponent_cases hpl (player_up b) with he | he <;> rw [he] <;> decide
      have ho1 : (owner b (d.getD 1 0)).isSome :=
        owner_isSome_of_playerAt_ne (by rw [hc1]; exact hup)
      have ho0 : (owner b (d.getD 0 0)).isSome :=
        owner_isSome_of_playerAt_ne (by rw [hc0]; exact hop)
      have ho2 : (owner b (d.getD 2 0)).isSome :=
        owner_isSome_of_playerAt_ne (by rw [hc2]; exact hop)
      -- if the picked edge were occupied, four distinct cells would be
      -- occupied, contradicting the count of 3
      have hm4 : m = 1 ∨ m = 3 ∨ m = 5 ∨ m = 7 := by simpa using hm
      have hm9 : m < 9 := by rcases hm4 with rfl | rfl | rfl | rfl <;> omega
      refine ⟨?_, hm9⟩
      by_contra hocc
      have hms : (owner b m).isSome := by
        cases ho : owner b m with
        | none => exact absurd ho hocc
        | some q => rfl
      have hdd : d = [0, 4, 8] ∨ d = [2, 4, 6] := by simpa [diagonals] using hd
      have hbound : d.getD 0 0 < 9 ∧ d.getD 1 0 < 9 ∧ d.getD 2 0 < 9 := by
        rcases hdd with rfl | rfl <;> exact ⟨by decide, by decide, by decide⟩
      have hnd : ([d.getD 0 0, d.getD 1 0, d.getD 2 0, m] : List Nat).Nodup := by
        rcases hdd with rfl | rfl <;> rcases hm4 with rfl | rfl | rfl | rfl <;> decide
      have hcontra := nodup_occupied_le b.cells [d.getD 0 0, d.getD 1 0, d.getD 2 0, m]
        hnd ?_
      · simp only [List.length_cons, List.length_nil] at hcontra
        omega
      · intro i hi
        rcases (by simpa using hi :
            i = d.getD 0 0 ∨ i = d.getD 1 0 ∨ i = d.getD 2 0 ∨ i = m) with
          rfl | rfl | rfl | rfl
        · exact ⟨by omega, ho0⟩
        · exact ⟨by omega, ho1⟩
        · exact ⟨by omega, ho2⟩
        · exact ⟨by omega, hms⟩
  · rw [if_neg h6] at h
    cases h

theorem default_move_sound {b : Board} {m : Nat} (hlen : b.cells.length = 9)
    (h : default_move b = some m) : owner b m = none ∧ m < 9 := by
  have hp9 : ∀ x ∈ preferred_move_order, x < 9 := by decide
  unfold default_move at h
  split at h
  · rename_i c hf
    injection h with h'
    subst h'
    have hcont := List.find?_some hf
    have hmem : c ∈ possible_wins b (player_up b) := by simpa using hcont
    have hempty : c ∈ empty_cells b := (List.mem_filter.mp hmem).1
    obtain ⟨hcl, hco⟩ := mem_empty_cells.mp hempty
    exact ⟨hco, by omega⟩
  · have hprop := List.find?_some h
    have hmem := List.mem_of_find?_eq_some h
    exact ⟨by simpa [cell_empty] using hprop, hp9 m hmem⟩

theorem default_move_total {b : Board} (j : Nat) (hj9 : j < 9)
    (hje : owner b j = none) : ∃ m, default_move b = some m := by
  unfold default_move
  cases hf : preferred_move_order.find?
      (fun c => (possible_wins b (player_up b)).contains c) with
  | some c => exact ⟨c, rfl⟩
  | none =>
    have hjp : j ∈ preferred_move_order := by
      have hlt : ∀ x, x < 9 → x ∈ preferred_move_order := by decide
      exact hlt j hj9
    have hs : (preferred_move_order.find? (fun c => cell_empty b c)).isSome :=
      List.find?_isSome.mpr ⟨j, hjp, by simp [cell_empty, hje]⟩
    obtain ⟨m, hm⟩ := Option.isSome_iff_exists.mp hs
    exact ⟨m, hm⟩

theorem full_no_winning_move {b : Board} {p : String}
    (hfull : ∀ i, i < 9 → owner b i ≠ none) : winning_move_for b p = none := by
  unfold winning_move_for
  rw [List.findSome?_eq_none_iff]
  intro v hv
  by_cases hw : winnable_vector b v p = true
  · rw [if_pos hw, List.find?_eq_none]
    intro x hx
    simpa [Option.isNone_iff_eq_none] using hfull x (vec_lt v hv x hx)
  · rw [if_neg hw]

theorem first_move_none {pick : List Nat → Nat} {b : Board} (h0 : b.turn ≠ 0) :
    first_move pick b = none := by
  unfold first_move
  rw [if_neg (by simpa using h0)]

/-- Claim C2: on a reachable board with at least one empty cell the engine
returns a cell index in `[0, 9)` referencing a currently-empty cell; on a
reachable board with no empty cell every tactic declines and the engine
returns no cell at all (Python's implicit `None`).  The random source is
any function that picks an element of its (non-empty) argument list. -/
theorem engine_move_legal (b : Board) (pick : List Nat → Nat)
    (hr : Reachable b) (hpick : ∀ l : List Nat, l ≠ [] → pick l ∈ l) :
    (empty_cells b ≠ [] →
      ∃ m, generate_move pick b = some m ∧ m < 9 ∧ owner b m = none) ∧
    (empty_cells b = [] → generate_move pick b = none) := by
  obtain ⟨hlen, hpl, hturn⟩ := reachable_inv hr
  constructor
  · intro hne
    unfold generate_move
    cases h1 : first_move pick b with
    | some m =>
      have ht0 : b.turn = 0 := by
        unfold first_move at h1
        by_cases h : (b.turn == 0) = true
        · simpa using h
        · rw [if_neg h] at h1
          cases h1
      have hme : m = pick [0, 2, 6, 8] := by
        unfold first_move at h1
        rw [if_pos (by simpa using ht0)] at h1
        injection h1 with h1'
        exact h1'.symm
      have hmm : m ∈ [0, 2, 6, 8] := hme ▸ hpick [0, 2, 6, 8] (by simp)
      have hall : ∀ i, owner b i = none := by
        apply owner_none_of_count0
        omega
      have hm9 : m < 9 := by
        rcases (by simpa using hmm : m = 0 ∨ m = 2 ∨ m = 6 ∨ m = 8) with
          rfl | rfl | rfl | rfl <;> omega
      exact ⟨m, rfl, hm9, hall m⟩
    | none =>
      cases h2 : take_winning_move b with
      | some m =>
        obtain ⟨ho, hm9, _⟩ := winning_move_for_sound h2
        exact ⟨m, rfl, hm9, ho⟩
      | none =>
        cases h3 : block_winning_move b with
        | some m =>
          obtain ⟨ho, hm9, _⟩ := winning_move_for_sound h3
          exact ⟨m, rfl, hm9, ho⟩
        | none =>
          cases h4 : create_fork b with
          | some m =>
            obtain ⟨ho, hm9⟩ := find_empty_sound h4
            exact ⟨m, rfl, by omega, ho⟩
          | none =>
            cases h5 : block_diag_fork pick b with
            | some m =>
              obtain ⟨ho, hm9⟩ := block_diag_fork_sound hlen hpl hpick h5
              exact ⟨m, rfl, hm9, ho⟩
            | none =>
              cases h6 : block_fork b with
              | some m =>
                obtain ⟨ho, hm9⟩ := find_empty_sound h6
                exact ⟨m, rfl, by omega, ho⟩
              | none =>
                obtain ⟨j, hj⟩ := List.exists_mem_of_ne_nil _ hne
                obtain ⟨hjl, hjo⟩ := mem_empty_cells.mp hj
                obtain ⟨m, hm⟩ := default_move_total j (by omega) hjo
                obtain ⟨ho, hm9⟩ := default_move_sound hlen hm
                exact ⟨m, hm, hm9, ho⟩
  · intro hnil
    have hfull : ∀ i, i < 9 → owner b i ≠ none := by
      intro i hi hcontra
      have hmem : i ∈ empty_cells b := mem_empty_cells.mpr ⟨by omega, hcontra⟩
      rw [hnil] at hmem
      cases hmem
    have hcn : b.cells.countP (·.isNone) = 0 := by
      have he := empty_cells_length b
      rw [hnil] at he
      simpa using he.symm
    have hcs : b.cells.countP (·.isSome) = 9 := by
      have := countP_none_add_some b.cells
      omega
    have h1 : first_move pick b = none := first_move_none (by omega)
    have h2 : take_winning_move b = none := full_no_winning_move hfull
    have h3 : block_winning_move b = none := full_no_winning_move hfull
    have h4 : create_fork b = none := by
      unfold create_fork
      rw [hnil]
      rfl
    have h6 : block_fork b = none := by
      unfold block_fork
      rw [hnil]
      rfl
    have h5 : block_diag_fork pick b = none := by
      unfold block_diag_fork
      rw [hnil]
      simp
    have h7 : default_move b = none := by
      have hfirst : preferred_move_order.find?
          (fun c => (possible_wins b (player_up b)).contains c) = none := by
        rw [List.find?_eq_none]
        intro x hx
        unfold possible_wins
        rw [hnil]
        simp
      unfold default_move
      simp only [hfirst]
      rw [List.find?_eq_none]
      intro x hx
      have hx9 : x < 9 := by
        have hb : ∀ y ∈ preferred_move_order, y < 9 := by decide
        exact hb x hx
      simpa [cell_empty, Option.isNone_iff_eq_none] using hfull x hx9
    simp only [generate_move, h1, h2, h3, h4, h5, h6, h7]

/-- Claim C2, witness at a concrete input: the fresh board. -/
theorem engine_move_legal_witness :
    ∃ m, generate_move (fun l => l.headD 0) initBoard = some m ∧ m < 9 ∧
      owner initBoard m = none :=
  (engine_move_legal initBoard (fun l => l.headD 0) Reachable.init
      (fun l hl => by
        cases l with
        | nil => exact absurd rfl hl
        | cons a t => simp)).1
    (by decide)

/-! ### Stats counts versus real ownership counts -/

theorem stats_eq_real {b : Board} {p : String} (hp : p ≠ "empty") (v : List Nat) :
    vector_stats b v p = v.countP (fun i => owner b i == some p) := by
  apply List.countP_congr
  intro i _
  cases ho : owner b i with
  | none =>
    simp only [playerAt_of_owner_none ho]
    constructor
    · intro he
      rw [beq_iff_eq] at he
      exact absurd he.symm hp
    · intro he
      rw [beq_iff_eq] at he
      cases he
  | some q => simp [playerAt_of_owner_some ho]

theorem stats_empty_eq {b : Board} {v : List Nat} (hv : v ∈ vectors)
    (hclean : ∀ i, i < 9 → owner b i ≠ some "empty") :
    vector_stats b v "empty" = v.countP (fun i => (owner b i).isNone) := by
  apply List.countP_congr
  intro i hi
  cases ho : owner b i with
  | none => simp [playerAt_of_owner_none ho]
  | some q =>
    have hq : q ≠ "empty" := fun he => hclean i (vec_lt v hv i hi) (he ▸ ho)
    simp [playerAt_of_owner_some ho, hq]

theorem owner_none_of_three {b : Board} (hcs : b.cells.countP (·.isSome) = 3)
    (hlen : b.cells.length = 9) (i j k m : Nat)
    (hnd : ([i, j, k, m] : List Nat).Nodup)
    (hi9 : i < 9) (hj9 : j < 9) (hk9 : k < 9) (hm9 : m < 9)
    (hi : (owner b i).isSome) (hj : (owner b j).isSome) (hk : (owner b k).isSome) :
    owner b m = none := by
  by_contra hocc
  have hms : (owner b m).isSome := by
    cases ho : owner b m with
    | none => exact absurd ho hocc
    | some q => rfl
  have hle := nodup_occupied_le b.cells [i, j, k, m] hnd ?_
  · simp only [List.length_cons, List.length_nil] at hle
    omega
  · intro x hx
    rcases (by simpa using hx : x = i ∨ x = j ∨ x = k ∨ x = m) with
      rfl | rfl | rfl | rfl
    · exact ⟨by omega, hi⟩
    · exact ⟨by omega, hj⟩
    · exact ⟨by omega, hk⟩
    · exact ⟨by omega, hms⟩

/-- Claim C6: on a reachable board where a winning move exists both for
the mover (some line holds exactly 2 mover-owned cells and 1 empty cell)
and for the opponent, the engine returns a cell completing one of the
mover's own 2-in-a-line threats — take-the-win strictly precedes
block-the-win.  The hypothesis `hclean` records that no cell is marked
with the sentinel string `"empty"`, which is not a player identifier. -/
theorem take_win_precedes_block (b : Board) (pick : List Nat → Nat)
    (hr : Reachable b)
    (hclean : ∀ i, i < 9 → owner b i ≠ some "empty")
    (hmw : ∃ v ∈ vectors,
      v.countP (fun i => owner b i == some (player_up b)) = 2 ∧
      v.countP (fun i => (owner b i).isNone) = 1)
    (how : ∃ v ∈ vectors,
      v.countP (fun i => owner b i == some (opponent b (player_up b))) = 2 ∧
      v.countP (fun i => (owner b i).isNone) = 1) :
    ∃ m, generate_move pick b = some m ∧ owner b m = none ∧
      ∃ v ∈ vectors, m ∈ v ∧
        v.countP (fun i => owner b i == some (player_up b)) = 2 := by
  obtain ⟨hlen, hpl, hturn⟩ := reachable_inv hr
  have hup_ne : player_up b ≠ "empty" := by
    rcases player_up_cases hpl with he | he <;> rw [he] <;> decide
  obtain ⟨v0, hv0, hc2, hc1⟩ := hmw
  -- the opening tactic does not fire: some cell is owned
  have ht0 : b.turn ≠ 0 := by
    intro ht
    have hall : ∀ i, owner b i = none := by
      apply owner_none_of_count0
      omega
    have : v0.countP (fun i => owner b i == some (player_up b)) = 0 :=
      List.countP_eq_zero.mpr (fun i _ => by simp [hall i])
    omega
  have h1 : first_move pick b = none := first_move_none ht0
  -- the mover's line is winnable in the code's sense
  have hwin : winnable_vector b v0 (player_up b) = true := by
    unfold winnable_vector
    rw [Bool.and_eq_true, beq_iff_eq, beq_iff_eq, stats_eq_real hup_ne,
      stats_empty_eq hv0 hclean]
    exact ⟨hc2, hc1⟩
  -- hence take-the-win returns a move
  have htake : (take_winning_move b).isSome := by
    cases ht : take_winning_move b with
    | some m => rfl
    | none =>
      unfold take_winning_move winning_move_for at ht
      rw [List.findSome?_eq_none_iff] at ht
      have hv0' := ht v0 hv0
      rw [if_pos hwin] at hv0'
      rw [List.find?_eq_none] at hv0'
      have hex : ∃ x ∈ v0, (owner b x).isNone := by
        by_contra hno
        push_neg at hno
        have hzero : v0.countP (fun i => (owner b i).isNone) = 0 :=
          List.countP_eq_zero.mpr (fun i hi => hno i hi)
        omega
      obtain ⟨x, hx, hxe⟩ := hex
      exact absurd hxe (by simpa using hv0' x hx)
  obtain ⟨m, hmv⟩ := Option.isSome_iff_exists.mp htake
  obtain ⟨ho, hm9, v, hvv, hwv, hmvv⟩ := winning_move_for_sound hmv
  refine ⟨m, ?_, ho, v, hvv, hmvv, ?_⟩
  · simp only [generate_move, h1, hmv]
  · unfold winnable_vector at hwv
    rw [Bool.and_eq_true, beq_iff_eq, beq_iff_eq, stats_eq_real hup_ne] at hwv
    exact hwv.1

/-- Claim C6, witness at a concrete input: X on cells 0 and 1, O on cells
3 and 4, X to move; both players are one move from a win. -/
theorem take_win_precedes_block_witness :
    ∃ m, generate_move (fun l => l.headD 0)
        (Board.mk [some "X", some "X", none, some "O", some "O", none, none, none,
          none] 4 ["X", "O"]) = some m ∧
      owner (Board.mk [some "X", some "X", none, some "O", some "O", none, none,
        none, none] 4 ["X", "O"]) m = none ∧
      ∃ v ∈ vectors, m ∈ v ∧
        v.countP (fun i =>
          owner (Board.mk [some "X", some "X", none, some "O", some "O", none, none,
            none, none] 4 ["X", "O"]) i
            == some (player_up (Board.mk [some "X", some "X", none, some "O",
              some "O", none, none, none, none] 4 ["X", "O"]))) = 2 :=
  take_win_precedes_block
    (Board.mk [some "X", some "X", none, some "O", some "O", none, none, none, none]
      4 ["X", "O"])
    (fun l => l.headD 0)
    (Reachable.step
      (Reachable.step
        (Reachable.step
          (Reachable.step Reachable.init
            (show set_cell initBoard 0 "X" = .ok
              (Board.mk [some "X", none, none, none, none, none, none, none, none] 1
                ["X", "O"], 0) from rfl))
          (show set_cell (Board.mk [some "X", none, none, none, none, none, none,
              none, none] 1 ["X", "O"]) 3 "O" = .ok
            (Board.mk [some "X", none, none, some "O", none, none, none, none, none] 2
              ["X", "O"], 3) from rfl))
        (show set_cell (Board.mk [some "X", none, none, some "O", none, none, none,
            none, none] 2 ["X", "O"]) 1 "X" = .ok
          (Board.mk [some "X", some "X", none, some "O", none, none, none, none,
            none] 3 ["X", "O"], 1) from rfl))
      (show set_cell (Board.mk [some "X", some "X", none, some "O", none, none, none,
          none, none] 3 ["X", "O"]) 4 "O" = .ok
        (Board.mk [some "X", some "X", none, some "O", some "O", none, none, none,
          none] 4 ["X", "O"], 4) from rfl))
    (by decide) (by decide) (by decide)

/-- Claim C7: on a reachable board with exactly 6 empty cells where the
mover holds the center and the opponent holds both ends of one diagonal,
and none of take-the-win, block-the-win, create-fork applies, the engine
returns one of the four edge midpoints 1, 3, 5, 7. -/
theorem diag_fork_blocked (b : Board) (pick : List Nat → Nat)
    (hr : Reachable b) (hpick : ∀ l : List Nat, l ≠ [] → pick l ∈ l)
    (h6 : (empty_cells b).length = 6)
    (hc : owner b 4 = some (player_up b))
    (hd : (owner b 0 = some (opponent b (player_up b)) ∧
            owner b 8 = some (opponent b (player_up b))) ∨
          (owner b 2 = some (opponent b (player_up b)) ∧
            owner b 6 = some (opponent b (player_up b))))
    (h2 : take_winning_move b = none) (h3 : block_winning_move b = none)
    (h4 : create_fork b = none) :
    ∃ m, generate_move pick b = some m ∧ m ∈ ([1, 3, 5, 7] : List Nat) := by
  obtain ⟨hlen, hpl, hturn⟩ := reachable_inv hr
  have hcn : b.cells.countP (·.isNone) = 6 := by
    rw [← empty_cells_length, h6]
  have hcs : b.cells.countP (·.isSome) = 3 := by
    have := countP_none_add_some b.cells
    omega
  have h1 : first_move pick b = none := first_move_none (by omega)
  have hop_ne : opponent b (player_up b) ≠ "empty" := by
    rcases opponent_cases hpl (player_up b) with he | he <;> rw [he] <;> decide
  have h5 : block_diag_fork pick b = some (pick [1, 3, 5, 7]) := by
    unfold block_diag_fork
    rw [if_pos (by simp [h6])]
    rcases hd with ⟨hd0, hd8⟩ | ⟨hd2, hd6⟩
    · have hcp : playerAt b 4 = player_up b ∧
          playerAt b 0 = opponent b (player_up b) ∧
          playerAt b 8 = opponent b (player_up b) :=
        ⟨playerAt_of_owner_some hc, playerAt_of_owner_some hd0,
          playerAt_of_owner_some hd8⟩
      simp only [diagonals, List.findSome?_cons, List.getD_cons_zero,
        List.getD_cons_succ, Bool.and_eq_true, beq_iff_eq]
      rw [if_pos hcp]
    · have h40 : owner b 0 = none :=
        owner_none_of_three hcs hlen 4 2 6 0 (by decide) (by omega) (by omega)
          (by omega) (by omega) (by rw [hc]; rfl) (by rw [hd2]; rfl)
          (by rw [hd6]; rfl)
      have hnot : ¬(playerAt b 4 = player_up b ∧
          playerAt b 0 = opponent b (player_up b) ∧
          playerAt b 8 = opponent b (player_up b)) := by
        rintro ⟨-, hB0, -⟩
        rw [playerAt_of_owner_none h40] at hB0
        exact hop_ne hB0.symm
      have hcp : playerAt b 4 = player_up b ∧
          playerAt b 2 = opponent b (player_up b) ∧
          playerAt b 6 = opponent b (player_up b) :=
        ⟨playerAt_of_owner_some hc, playerAt_of_owner_some hd2,
          playerAt_of_owner_some hd6⟩
      simp only [diagonals, List.findSome?_cons, List.getD_cons_zero,
        List.getD_cons_succ, Bool.and_eq_true, beq_iff_eq]
      rw [if_neg hnot, if_pos hcp]
  refine ⟨pick [1, 3, 5, 7], ?_, hpick [1, 3, 5, 7] (by simp)⟩
  simp only [generate_move, h1, h2, h3, h4, h5]

/-- Claim C7, witness at a concrete input: X on the 0-8 diagonal ends, O
(the mover) on the center, 6 cells empty. -/
theorem diag_fork_blocked_witness :
    ∃ m, generate_move (fun l => l.headD 0)
        (Board.mk [some "X", none, none, none, some "O", none, none, none, some "X"]
          3 ["X", "O"]) = some m ∧ m ∈ ([1, 3, 5, 7] : List Nat) :=
  diag_fork_blocked
    (Board.mk [some "X", none, none, none, some "O", none, none, none, some "X"] 3
      ["X", "O"])
    (fun l => l.headD 0)
    (Reachable.step
      (Reachable.step
        (Reachable.step Reachable.init
          (show set_cell initBoard 0 "X" = .ok
            (Board.mk [some "X", none, none, none, none, none, none, none, none] 1
              ["X", "O"], 0) from rfl))
        (show set_cell (Board.mk [some "X", none, none, none, none, none, none, none,
            none] 1 ["X", "O"]) 4 "O" = .ok
          (Board.mk [some "X", none, none, none, some "O", none, none, none, none] 2
            ["X", "O"], 4) from rfl))
      (show set_cell (Board.mk [some "X", none, none, none, some "O", none, none,
          none, none] 2 ["X", "O"]) 8 "X" = .ok
        (Board.mk [some "X", none, none, none, some "O", none, none, none, some "X"] 3
          ["X", "O"], 8) from rfl))
    (fun l hl => by
      cases l with
      | nil => exact absurd rfl hl
      | cons a t => simp)
    (by decide) (by decide) (Or.inl ⟨by decide, by decide⟩)
    (by decide) (by decide) (by decide)

end TTT
